import Mathlib

/-!
Verification of the Kelly-formula calculation core (`calc.py`).

A shallow embedding of the pure computation module of the repository:
price matrix → returns → excess returns → (Kelly vector F, annualized
mean M, annualized covariance C) → Sharpe ratio, maximum growth rate,
half-Kelly vector.

Conventions of the embedding:
* exact numbers: every price / return / rate is a rational (`ℚ`);
* a price or returns matrix at the `pct_change` stage is a `List (List ℚ)`
  (rows = time points, columns = instruments), because `pct_change` can
  produce non-finite IEEE values which we track with the `FVal` type;
* an excess-returns matrix entering the Kelly solver is a
  `Matrix (Fin n) (Fin k) ℚ` (n observations, k instruments), and the
  solver's vectors are `Fin k → ℚ`;
* `numpy.linalg.solve` is modelled by `linalg_solve`: it fails (raising
  `LinAlgError`, embedded as `KellyError.SingularCovariance`) exactly when
  the matrix is singular (determinant zero), and otherwise returns the
  unique solution of the linear system;
* `numpy.sqrt` on a scalar is modelled by `np_sqrt`: real square root for
  a nonnegative argument, IEEE NaN (the `SVal.nan` value) for a negative
  one.
-/

/-- Error taxonomy of the core, as the spec names it.  In the source the
singular-covariance failure is `numpy.linalg.LinAlgError` raised by
`numpy.linalg.solve`; input-shape problems surface as other exception
types (`ValueError` etc.), embedded here as `InvalidInput`.  The two are
distinct constructors, hence distinct errors. -/
inductive KellyError where
  | SingularCovariance
  | InvalidInput
deriving DecidableEq, Repr

/-- An IEEE-style scalar produced by pandas float division: either a
finite value (carried exactly as a rational), `inf`, `-inf`, or `nan`. -/
inductive FVal where
  | fin (q : ℚ)
  | inf
  | ninf
  | nan
deriving DecidableEq, Repr

namespace FVal

/-- Whether the value is finite. -/
def isFinite : FVal → Bool
  | .fin _ => true
  | _ => false

end FVal

/-- IEEE float division of two exactly-represented reals, as numpy/pandas
performs it: `a / 0` is `inf` for positive `a`, `-inf` for negative `a`,
and `nan` for `0 / 0`; otherwise the exact quotient. -/
def fdiv (a b : ℚ) : FVal :=
  if b = 0 then
    if 0 < a then .inf else if a < 0 then .ninf else .nan
  else .fin (a / b)

/-- Subtracting the constant 1 from an IEEE scalar (`x - 1` keeps `inf`,
`-inf` and `nan` fixed). -/
def fsub1 : FVal → FVal
  | .fin q => .fin (q - 1)
  | .inf => .inf
  | .ninf => .ninf
  | .nan => .nan

/-- One row of `DataFrame.pct_change`: given the previous and the current
price row, each cell is `cur / prev - 1` in IEEE arithmetic. -/
def rowReturn (prev cur : List ℚ) : List FVal :=
  (cur.zip prev).map fun cp => fsub1 (fdiv cp.1 cp.2)

/-- Embeds `DataFrame.pct_change()`: the first row is all-NaN (no prior row),
and row `t ≥ 1` is `prices[t] / prices[t-1] - 1` cellwise. -/
def pct_change (prices : List (List ℚ)) : List (List FVal) :=
  match prices with
  | [] => []
  | p0 :: _ =>
      p0.map (fun _ => FVal.nan) ::
        (prices.zip prices.tail).map fun pr => rowReturn pr.1 pr.2

/-- Embeds `compute_returns` from `calc.py`: `prices.pct_change().iloc[1:]` —
simple arithmetic returns, with the NaN first row dropped. -/
def compute_returns (prices : List (List ℚ)) : List (List FVal) :=
  (pct_change prices).drop 1

/-- Embeds `compute_excess_returns` from `calc.py`: subtract the daily risk-free
rate `annual_rf / 252` from every cell of the returns matrix. -/
def compute_excess_returns (returns : List (List ℚ)) (annual_rf : ℚ) :
    List (List ℚ) :=
  let daily_rf := annual_rf / 252
  returns.map fun row => row.map fun x => x - daily_rf

/-- Embeds `compute_max_growth_rate` from `calc.py`:
`g = annual_rf + sharpe ** 2 / 2`. -/
def compute_max_growth_rate (annual_rf : ℚ) (sharpe : ℚ) : ℚ :=
  annual_rf + sharpe ^ 2 / 2

/-- Embeds `compute_half_kelly` from `calc.py`: `F / 2` elementwise on the
leverage vector. -/
def compute_half_kelly {k : ℕ} (F : Fin k → ℚ) : Fin k → ℚ :=
  fun i => F i / 2

/-- Element `(i, j)` of a `List (List ℚ)` matrix, with default `0` out of
bounds. -/
def qGet (m : List (List ℚ)) (i j : ℕ) : ℚ :=
  (m.getD i []).getD j 0

/-- Element `(i, j)` of a `List (List FVal)` matrix, with default `nan`
out of bounds. -/
def fGet (m : List (List FVal)) (i j : ℕ) : FVal :=
  (m.getD i []).getD j .nan

/-- Columnwise mean of an excess-returns matrix
(`excess_returns.mean()` in pandas). -/
def meanCol {n k : ℕ} (R : Matrix (Fin n) (Fin k) ℚ) (j : Fin k) : ℚ :=
  (∑ t, R t j) / n

/-- Sample covariance matrix of the columns (`excess_returns.cov()` in
pandas), with the unbiased `n - 1` denominator. -/
def sampleCov {n k : ℕ} (R : Matrix (Fin n) (Fin k) ℚ) :
    Matrix (Fin k) (Fin k) ℚ :=
  Matrix.of fun i j =>
    (∑ t, (R t i - meanCol R i) * (R t j - meanCol R j)) / ((n : ℚ) - 1)

/-- Embeds `M = excess_returns.mean().values * 252` — the annualized mean excess
return vector. -/
def annualM {n k : ℕ} (R : Matrix (Fin n) (Fin k) ℚ) : Fin k → ℚ :=
  fun j => meanCol R j * 252

/-- Embeds `C = excess_returns.cov().values * 252` — the annualized covariance
matrix. -/
def annualC {n k : ℕ} (R : Matrix (Fin n) (Fin k) ℚ) :
    Matrix (Fin k) (Fin k) ℚ :=
  Matrix.of fun i j => sampleCov R i j * 252

/-- Embeds `np.diag(np.diag(C))`: keep the diagonal, zero every off-diagonal
entry. -/
def np_diag_diag {k : ℕ} (C : Matrix (Fin k) (Fin k) ℚ) :
    Matrix (Fin k) (Fin k) ℚ :=
  Matrix.of fun i j => if i = j then C i i else 0

/-- The covariance matrix actually passed to the solver: the annualized
covariance, diagonalized when `diagonal_only` is set. -/
def kellyCov {n k : ℕ} (R : Matrix (Fin n) (Fin k) ℚ) (diagonal_only : Bool) :
    Matrix (Fin k) (Fin k) ℚ :=
  if diagonal_only then np_diag_diag (annualC R) else annualC R

/-- Embeds `np.linalg.solve(C, M)`: fails with `LinAlgError` (embedded as
`SingularCovariance`) exactly when `C` is singular, and otherwise returns
the unique solution of `C · F = M`, here written through the adjugate
(Cramer) form `det⁻¹ • adj(C) · M` of that unique solution. -/
def linalg_solve {k : ℕ} (C : Matrix (Fin k) (Fin k) ℚ) (M : Fin k → ℚ) :
    Except KellyError (Fin k → ℚ) :=
  if C.det = 0 then .error .SingularCovariance
  else .ok ((C.det)⁻¹ • C.adjugate.mulVec M)

/-- Embeds `compute_kelly_vector` from `calc.py`: annualize mean and covariance,
optionally diagonalize, solve `C · F = M`, return `(F, M, C)`. -/
def compute_kelly_vector {n k : ℕ} (excess_returns : Matrix (Fin n) (Fin k) ℚ)
    (diagonal_only : Bool) :
    Except KellyError ((Fin k → ℚ) × (Fin k → ℚ) × Matrix (Fin k) (Fin k) ℚ) :=
  let M := annualM excess_returns
  let C := kellyCov excess_returns diagonal_only
  (linalg_solve C M).map fun F => (F, M, C)

/-- An IEEE scalar produced by `np.sqrt`: a real value or NaN. -/
inductive SVal where
  | nan
  | val (x : ℝ)

/-- Embeds `np.sqrt` on a scalar: the real square root for a nonnegative
argument, NaN for a negative one (numpy emits a warning and yields NaN,
it does not raise). -/
noncomputable def np_sqrt (x : ℚ) : SVal :=
  if x < 0 then .nan else .val (Real.sqrt x)

/-- Embeds `compute_sharpe` from `calc.py`: `float(np.sqrt(F.T @ C @ F))`.
With a 1-D `F`, `F.T @ C @ F` is the vector-matrix product `F ᵥ* C`
dotted with `F`.  The mean vector `M` is accepted and ignored, exactly as
in the source. -/
noncomputable def compute_sharpe {k : ℕ} (M : Fin k → ℚ)
    (C : Matrix (Fin k) (Fin k) ℚ) (F : Fin k → ℚ) : SVal :=
  np_sqrt (Matrix.dotProduct (Matrix.vecMul F C) F)

/-! ### Helper lemmas -/

/-- Soundness of the embedded `np.linalg.solve`: a successful solve has a
nonsingular matrix and its result solves the linear system. -/
theorem linalg_solve_sound {k : ℕ} (C : Matrix (Fin k) (Fin k) ℚ)
    (M F : Fin k → ℚ) (h : linalg_solve C M = .ok F) :
    C.det ≠ 0 ∧ C.mulVec F = M := by
  unfold linalg_solve at h
  split at h
  · exact absurd h (by simp)
  · rename_i hdet
    refine ⟨hdet, ?_⟩
    injection h with h
    subst h
    rw [Matrix.mulVec_smul, Matrix.mulVec_mulVec, Matrix.mul_adjugate,
      Matrix.smul_mulVec_assoc, Matrix.one_mulVec, smul_smul,
      inv_mul_cancel₀ hdet, one_smul]

/-- The embedded `np.linalg.solve` succeeds on a nonsingular matrix. -/
theorem linalg_solve_of_ne {k : ℕ} (C : Matrix (Fin k) (Fin k) ℚ)
    (M : Fin k → ℚ) (hdet : C.det ≠ 0) :
    linalg_solve C M = .ok ((C.det)⁻¹ • C.adjugate.mulVec M) := by
  unfold linalg_solve
  rw [if_neg hdet]

/-! ### Claim theorems -/

/-- C1: for every excess-returns matrix with at least 2 rows and K
columns and a flag `diagonal_only`, `compute_kelly_vector` returns
`(F, M, C)` where `M` is the columnwise mean multiplied by 252, `C` is
the unbiased (denominator n−1) sample covariance of the columns
multiplied by 252 — replaced by its diagonal when `diagonal_only` is
true — and `F` satisfies the linear system `C · F = M`.  (Stated for a
nonsingular solver matrix, the case in which the solve returns.) -/
theorem compute_kelly_vector_spec {n k : ℕ} (hn : 2 ≤ n)
    (R : Matrix (Fin n) (Fin k) ℚ) (d : Bool)
    (hdet : (kellyCov R d).det ≠ 0) :
    ∃ F : Fin k → ℚ,
      compute_kelly_vector R d = .ok (F, annualM R, kellyCov R d)
      ∧ (∀ j, annualM R j = ((∑ t, R t j) / n) * 252)
      ∧ (∀ i j, kellyCov R d i j =
          if d = true ∧ i ≠ j then 0
          else ((∑ t, (R t i - (∑ s, R s i) / n) * (R t j - (∑ s, R s j) / n))
                  / ((n : ℚ) - 1)) * 252)
      ∧ (kellyCov R d).mulVec F = annualM R := by
  refine ⟨((kellyCov R d).det)⁻¹ • (kellyCov R d).adjugate.mulVec (annualM R),
    ?_, ?_, ?_, ?_⟩
  · show Except.map _ (linalg_solve (kellyCov R d) (annualM R)) = _
    rw [linalg_solve_of_ne _ _ hdet]
    rfl
  · intro j
    rfl
  · intro i j
    cases d with
    | false =>
        simp only [kellyCov, if_neg (Bool.false_ne_true), annualC, sampleCov,
          meanCol, Matrix.of_apply]
        simp
    | true =>
        simp only [kellyCov, if_pos rfl, np_diag_diag, annualC, sampleCov,
          meanCol, Matrix.of_apply]
        by_cases hij : i = j
        · subst hij
          simp
        · simp [hij]
  · exact (linalg_solve_sound _ _ _ (linalg_solve_of_ne _ _ hdet)).2

/-- Witness for C1: the two-observation single-instrument matrix with
rows 1/10 and 3/10 has nonsingular annualized covariance, and the solver
returns the triple with `C · F = M`. -/
theorem compute_kelly_vector_spec_witness :
    ∃ F : Fin 1 → ℚ,
      compute_kelly_vector !![(1:ℚ)/10; 3/10] false
        = .ok (F, annualM !![(1:ℚ)/10; 3/10], kellyCov !![(1:ℚ)/10; 3/10] false)
      ∧ (kellyCov !![(1:ℚ)/10; 3/10] false).mulVec F
          = annualM !![(1:ℚ)/10; 3/10] := by
  obtain ⟨F, h1, -, -, h4⟩ :=
    compute_kelly_vector_spec (by norm_num) !![(1:ℚ)/10; 3/10] false
      (by norm_num [kellyCov, annualC, sampleCov, meanCol, Matrix.det_fin_one,
        Fin.sum_univ_two])
  exact ⟨F, h1, h4⟩

/-- C2: whenever the covariance matrix passed to the solver (after the
optional diagonalization) is singular, `compute_kelly_vector` fails with
the singular-covariance error — an error distinct from the input-shape
error — and never returns a (fallback) leverage vector. -/
theorem compute_kelly_vector_singular {n k : ℕ}
    (R : Matrix (Fin n) (Fin k) ℚ) (d : Bool)
    (hdet : (kellyCov R d).det = 0) :
    compute_kelly_vector R d = .error .SingularCovariance
    ∧ (∀ out, compute_kelly_vector R d ≠ .ok out)
    ∧ KellyError.SingularCovariance ≠ KellyError.InvalidInput := by
  have herr : compute_kelly_vector R d = .error .SingularCovariance := by
    show Except.map _ (linalg_solve (kellyCov R d) (annualM R)) = _
    unfold linalg_solve
    rw [if_pos hdet]
    rfl
  refine ⟨herr, ?_, by simp⟩
  intro out hok
  rw [herr] at hok
  exact absurd hok (by simp)

/-- Witness for C2: two instruments with identical excess-return series
(three observations) give a singular covariance matrix, so the solver
fails with `SingularCovariance`. -/
theorem compute_kelly_vector_singular_witness :
    compute_kelly_vector !![(1:ℚ)/100, 1/100; 1/50, 1/50; 3/100, 3/100] false
      = .error .SingularCovariance := by
  exact (compute_kelly_vector_singular
    !![(1:ℚ)/100, 1/100; 1/50, 1/50; 3/100, 3/100] false
    (by norm_num [kellyCov, annualC, sampleCov, meanCol, Matrix.det_fin_two,
      Fin.sum_univ_three])).1

/-- C7: for a single-instrument excess-returns matrix (K = 1),
`compute_kelly_vector` reduces to scalar division — the returned `F` is
the annualized mean divided by the annualized variance — and the
diagonalization flag has no effect (the covariance passed on is
`annualC R` for either flag value). -/
theorem compute_kelly_vector_single_instrument {n : ℕ}
    (R : Matrix (Fin n) (Fin 1) ℚ) (d : Bool)
    (hvar : annualC R 0 0 ≠ 0) :
    compute_kelly_vector R d
      = .ok (fun _ => annualM R 0 / annualC R 0 0, annualM R, annualC R) := by
  have hcov : kellyCov R d = annualC R := by
    cases d with
    | false => rfl
    | true =>
        ext i j
        have hi : i = 0 := Subsingleton.elim i 0
        have hj : j = 0 := Subsingleton.elim j 0
        subst hi
        subst hj
        simp [kellyCov, np_diag_diag]
  have hdet : ¬((annualC R).det = 0) := by
    rw [Matrix.det_fin_one]
    exact hvar
  have hF : ((annualC R).det)⁻¹ • (annualC R).adjugate.mulVec (annualM R)
      = fun _ : Fin 1 => annualM R 0 / annualC R 0 0 := by
    funext j
    rw [Matrix.adjugate_fin_one, Matrix.one_mulVec, Matrix.det_fin_one]
    have hj : j = 0 := Subsingleton.elim j 0
    subst hj
    simp [div_eq_inv_mul]
  show Except.map _ (linalg_solve (kellyCov R d) (annualM R)) = _
  rw [hcov]
  unfold linalg_solve
  rw [if_neg hdet, hF]
  rfl

/-- Witness for C7: on the concrete two-observation single-instrument
matrix with rows 1/10 and 3/10 and the diagonal flag set, the solver
returns the scalar quotient M / C. -/
theorem compute_kelly_vector_single_instrument_witness :
    compute_kelly_vector !![(1:ℚ)/10; 3/10] true
      = .ok (fun _ => annualM !![(1:ℚ)/10; 3/10] 0 / annualC !![(1:ℚ)/10; 3/10] 0 0,
             annualM !![(1:ℚ)/10; 3/10], annualC !![(1:ℚ)/10; 3/10]) :=
  compute_kelly_vector_single_instrument !![(1:ℚ)/10; 3/10] true
    (by norm_num [annualC, sampleCov, meanCol, Fin.sum_univ_two])

/-- C8: `compute_max_growth_rate` returns exactly `annual_rf + S² / 2`
and is total (never fails); at `annual_rf = 1/20` (= 0.05) and `S = 1`
it returns `11/20` (= 0.55), and at `S = 0` it returns `annual_rf`
exactly. -/
theorem compute_max_growth_rate_spec :
    (∀ annual_rf sharpe : ℚ,
        compute_max_growth_rate annual_rf sharpe = annual_rf + sharpe ^ 2 / 2)
    ∧ (∀ annual_rf : ℚ, compute_max_growth_rate annual_rf 0 = annual_rf)
    ∧ compute_max_growth_rate (1/20) 1 = 11/20 := by
  refine ⟨fun _ _ => rfl, fun annual_rf => ?_, by norm_num [compute_max_growth_rate]⟩
  simp [compute_max_growth_rate]

/-- C9: `compute_half_kelly` scales the leverage vector elementwise by
one half and is total; in particular it maps `[2, -1, 1/2]` to
`[1, -1/2, 1/4]`. -/
theorem compute_half_kelly_spec :
    (∀ (k : ℕ) (F : Fin k → ℚ) (i : Fin k), compute_half_kelly F i = F i / 2)
    ∧ compute_half_kelly ![2, -1, 1/2] = ![1, -1/2, 1/4] := by
  refine ⟨fun _ _ _ => rfl, ?_⟩
  funext i
  fin_cases i <;> norm_num [compute_half_kelly]

/-- C10: the result of `compute_sharpe` does not depend on its `M`
argument — the source computes `np.sqrt(F.T @ C @ F)` and never reads
`M`. -/
theorem compute_sharpe_ignores_M {k : ℕ} (M1 M2 : Fin k → ℚ)
    (C : Matrix (Fin k) (Fin k) ℚ) (F : Fin k → ℚ) :
    compute_sharpe M1 C F = compute_sharpe M2 C F := rfl

/-- C6 counterexample: the claim says the returned Sharpe ratio is never
NaN (tiny negative radicands being guarded before the square root).  The
source has no such guard: at `M = [0]`, `C = [[-1]]`, `F = [1]` the
radicand `FᵗCF` is `-1` and `compute_sharpe` returns NaN. -/
theorem compute_sharpe_nan_counterexample :
    compute_sharpe ![(0:ℚ)] !![(-1:ℚ)] ![(1:ℚ)] = .nan := by
  unfold compute_sharpe np_sqrt
  norm_num [Matrix.vecMul, Matrix.dotProduct, Fin.sum_univ_one]

/-- C6 (amended): `compute_sharpe` returns `sqrt(Fᵗ · C · F)` when the
radicand is nonnegative, and NaN — with no clamp or explicit failure —
when the radicand is negative.  (The source's `F.T @ C @ F`, embedded as
`(F ᵥ* C) ⬝ᵥ F`, equals the quadratic form `F ⬝ᵥ (C *ᵥ F)`.) -/
theorem compute_sharpe_spec {k : ℕ} (M : Fin k → ℚ)
    (C : Matrix (Fin k) (Fin k) ℚ) (F : Fin k → ℚ) :
    (0 ≤ Matrix.dotProduct F (Matrix.mulVec C F) →
        compute_sharpe M C F
          = .val (Real.sqrt ((Matrix.dotProduct F (Matrix.mulVec C F) : ℚ) : ℝ)))
    ∧ (Matrix.dotProduct F (Matrix.mulVec C F) < 0 →
        compute_sharpe M C F = .nan) := by
  have hq : Matrix.dotProduct (Matrix.vecMul F C) F
      = Matrix.dotProduct F (Matrix.mulVec C F) := by
    rw [Matrix.dotProduct_mulVec]
  constructor
  · intro h
    unfold compute_sharpe np_sqrt
    rw [hq, if_neg (not_lt.mpr h)]
  · intro h
    unfold compute_sharpe np_sqrt
    rw [hq, if_pos h]

/-- Witness for C6 (amended): at `M = [0]`, `C = [[1]]`, `F = [2]` the
radicand is nonnegative and `compute_sharpe` returns its real square
root. -/
theorem compute_sharpe_spec_witness :
    0 ≤ Matrix.dotProduct ![(2:ℚ)] (Matrix.mulVec !![(1:ℚ)] ![(2:ℚ)])
    ∧ compute_sharpe ![(0:ℚ)] !![(1:ℚ)] ![(2:ℚ)]
        = .val (Real.sqrt ((Matrix.dotProduct ![(2:ℚ)] (Matrix.mulVec !![(1:ℚ)] ![(2:ℚ)]) : ℚ) : ℝ)) :=
  ⟨by norm_num [Matrix.mulVec, Matrix.dotProduct, Fin.sum_univ_one],
   (compute_sharpe_spec ![(0:ℚ)] !![(1:ℚ)] ![(2:ℚ)]).1
     (by norm_num [Matrix.mulVec, Matrix.dotProduct, Fin.sum_univ_one])⟩

/-- Unfolding lemma: on a matrix with at least two rows, the returns
matrix is the first pairwise row return followed by the returns of the
tail. -/
theorem compute_returns_cons (p0 p1 : List ℚ) (rest : List (List ℚ)) :
    compute_returns (p0 :: p1 :: rest)
      = rowReturn p0 p1 :: compute_returns (p1 :: rest) := rfl

/-- The returns matrix always has one row fewer than the price matrix. -/
theorem compute_returns_length (prices : List (List ℚ)) :
    (compute_returns prices).length = prices.length - 1 := by
  induction prices with
  | nil => rfl
  | cons p0 tl ih =>
      cases tl with
      | nil => rfl
      | cons p1 rest =>
          rw [compute_returns_cons, List.length_cons, ih]
          simp

/-- Cell access into one row of returns. -/
theorem rowReturn_getD (prev cur : List ℚ) (j : ℕ)
    (hc : j < cur.length) (hp : j < prev.length) :
    (rowReturn prev cur).getD j .nan
      = fsub1 (fdiv (cur.getD j 0) (prev.getD j 0)) := by
  unfold rowReturn
  rw [List.getD_eq_getElem _ _ (by rw [List.length_map, List.length_zip]; omega),
    List.getElem_map, List.getElem_zip,
    List.getD_eq_getElem _ _ hc, List.getD_eq_getElem _ _ hp]

/-- Cell access into the returns matrix: cell `(t, j)` is the IEEE value
of `prices[t+1][j] / prices[t][j] - 1`. -/
theorem compute_returns_cell (prices : List (List ℚ)) (k t j : ℕ)
    (hrect : ∀ r ∈ prices, r.length = k)
    (ht : t + 1 < prices.length) (hj : j < k) :
    fGet (compute_returns prices) t j
      = fsub1 (fdiv (qGet prices (t + 1) j) (qGet prices t j)) := by
  induction prices generalizing t with
  | nil => simp at ht
  | cons p0 tl ih =>
      cases tl with
      | nil => simp at ht
      | cons p1 rest =>
          cases t with
          | zero =>
              rw [compute_returns_cons]
              show (rowReturn p0 p1).getD j .nan = _
              rw [rowReturn_getD p0 p1 j
                (by rw [hrect p1 (by simp)]; exact hj)
                (by rw [hrect p0 (by simp)]; exact hj)]
              rfl
          | succ t2 =>
              rw [compute_returns_cons]
              show fGet (compute_returns (p1 :: rest)) t2 j = _
              rw [ih t2 (fun r hr => hrect r (List.mem_cons_of_mem p0 hr))
                (by simp only [List.length_cons] at ht ⊢; omega)]
              rfl

/-- C3: for a price matrix with N ≥ 2 time points, K instruments and all
prices positive, `compute_returns` has exactly N − 1 rows and cell
`(t, j)` equals `(price[t+1][j] − price[t][j]) / price[t][j]` (the cell
for consecutive time points `t`, `t+1`), a finite value. -/
theorem compute_returns_spec (prices : List (List ℚ)) (k : ℕ)
    (hrect : ∀ r ∈ prices, r.length = k)
    (h2 : 2 ≤ prices.length)
    (hpos : ∀ r ∈ prices, ∀ x ∈ r, 0 < x) :
    (compute_returns prices).length = prices.length - 1
    ∧ ∀ t j, t + 1 < prices.length → j < k →
        fGet (compute_returns prices) t j
          = .fin ((qGet prices (t + 1) j - qGet prices t j) / qGet prices t j) := by
  refine ⟨compute_returns_length prices, fun t j ht hj => ?_⟩
  have htlt : t < prices.length := by omega
  have hrow : (prices.getD t []).length = k := by
    rw [List.getD_eq_getElem _ _ htlt]
    exact hrect _ (prices.getElem_mem htlt)
  have hprev : 0 < qGet prices t j := by
    unfold qGet
    have hmem : prices.getD t [] ∈ prices := by
      rw [List.getD_eq_getElem _ _ htlt]
      exact prices.getElem_mem htlt
    have hjr : j < (prices.getD t []).length := by rw [hrow]; exact hj
    rw [List.getD_eq_getElem _ _ hjr]
    exact hpos _ hmem _ (List.getElem_mem hjr)
  rw [compute_returns_cell prices k t j hrect ht hj]
  unfold fdiv
  rw [if_neg (ne_of_gt hprev)]
  show FVal.fin _ = _
  congr 1
  have hne := ne_of_gt hprev
  field_simp

/-- Witness for C3: two time points of prices 100 and 110 for one
instrument give one returns row whose cell is the finite value 1/10. -/
theorem compute_returns_spec_witness :
    (compute_returns [[(100:ℚ)], [(110:ℚ)]]).length = 1
    ∧ fGet (compute_returns [[(100:ℚ)], [(110:ℚ)]]) 0 0
        = .fin ((110 - 100) / 100) := by
  have h := compute_returns_spec [[(100:ℚ)], [(110:ℚ)]] 1
    (by intro r hr; fin_cases hr <;> rfl) (by norm_num)
    (by intro r hr; fin_cases hr <;> norm_num)
  refine ⟨h.1, ?_⟩
  have hc := h.2 0 0 (by norm_num) (by norm_num)
  rw [hc]
  norm_num [qGet]

/-- C4 counterexample: the claim says a zero price makes the returns
transform fail with an explicit `InvalidInput` error.  The source raises
nothing: on the price matrix `[[0], [1]]` it returns the ordinary value
`[[inf]]` — a non-finite cell, not an error. -/
theorem compute_returns_zero_counterexample :
    compute_returns [[(0:ℚ)], [(1:ℚ)]] = [[FVal.inf]]
    ∧ (fGet (compute_returns [[(0:ℚ)], [(1:ℚ)]]) 0 0).isFinite = false := by
  have h : compute_returns [[(0:ℚ)], [(1:ℚ)]] = [[FVal.inf]] := by
    show [rowReturn [0] [1]] = _
    norm_num [rowReturn, fdiv, fsub1]
  refine ⟨h, ?_⟩
  unfold fGet
  rw [h]
  rfl

/-- C4 (amended): on a price matrix with a zero price at a prior time
point, `compute_returns` does not fail; the affected cell of the returned
matrix is a non-finite IEEE value (`inf`, `-inf` or `nan`, by the sign of
the following price). -/
theorem compute_returns_zero_price (prices : List (List ℚ)) (k t j : ℕ)
    (hrect : ∀ r ∈ prices, r.length = k)
    (ht : t + 1 < prices.length) (hj : j < k)
    (hzero : qGet prices t j = 0) :
    (fGet (compute_returns prices) t j).isFinite = false := by
  rw [compute_returns_cell prices k t j hrect ht hj, hzero]
  unfold fdiv
  rw [if_pos rfl]
  split_ifs <;> rfl

/-- Witness for C4 (amended): on the price matrix `[[0], [1]]`, cell
`(0, 0)` of the returns matrix is non-finite. -/
theorem compute_returns_zero_price_witness :
    (fGet (compute_returns [[(0:ℚ)], [(1:ℚ)]]) 0 0).isFinite = false :=
  compute_returns_zero_price [[(0:ℚ)], [(1:ℚ)]] 1 0 0
    (by intro r hr; fin_cases hr <;> rfl) (by norm_num) (by norm_num) rfl

/-- C5: `compute_excess_returns` keeps the shape of the returns matrix
and subtracts exactly the constant `annual_rf / 252` from every cell; at
`annual_rf = 0` the output equals the input exactly. -/
theorem compute_excess_returns_spec (returns : List (List ℚ)) (annual_rf : ℚ) :
    ((compute_excess_returns returns annual_rf).length = returns.length
      ∧ ∀ t j, t < returns.length → j < (returns.getD t []).length →
          qGet (compute_excess_returns returns annual_rf) t j
            = qGet returns t j - annual_rf / 252)
    ∧ (annual_rf = 0 → compute_excess_returns returns annual_rf = returns) := by
  refine ⟨⟨by simp [compute_excess_returns], fun t j ht hj => ?_⟩, fun h0 => ?_⟩
  · simp only [compute_excess_returns]
    unfold qGet
    rw [List.getD_eq_getElem _ _ ht] at hj
    have ht2 : t < (returns.map (fun row =>
        row.map (fun x => x - annual_rf / 252))).length := by
      rw [List.length_map]
      exact ht
    have hj2 : j < (List.map (fun x => x - annual_rf / 252) returns[t]).length := by
      rw [List.length_map]
      exact hj
    rw [List.getD_eq_getElem _ _ ht2, List.getElem_map]
    rw [List.getD_eq_getElem _ _ hj2, List.getElem_map]
    rw [List.getD_eq_getElem _ _ ht, List.getD_eq_getElem _ _ hj]
  · subst h0
    show returns.map (fun row => row.map (fun x => x - 0 / 252)) = returns
    have hid : (fun x : ℚ => x - 0 / 252) = id := by
      funext x
      simp
    rw [hid]
    simp

/-- Witness for C5: subtracting the daily rate from a concrete one-row
matrix, and the exact identity at a zero risk-free rate. -/
theorem compute_excess_returns_spec_witness :
    qGet (compute_excess_returns [[(1:ℚ)/10, 2/10]] (21/100)) 0 1
        = 2/10 - (21/100) / 252
    ∧ compute_excess_returns [[(1:ℚ)/10]] 0 = [[(1:ℚ)/10]] := by
  constructor
  · have h := ((compute_excess_returns_spec [[(1:ℚ)/10, 2/10]] (21/100)).1).2 0 1
      (by norm_num) (by norm_num [List.getD])
    rw [h]
    norm_num [qGet]
  · exact (compute_excess_returns_spec [[(1:ℚ)/10]] 0).2 rfl
